import Mathlib

/-!
Verification development for the token-based authentication and request-gating
subsystem of the quizmaker application.

The embedding translates, at the level of Unicode code points (JS strings are
modelled as `List Char`, JS byte arrays as `List Nat`):

* `src/quizmaker-app/src/lib/crypto-edge.ts` — password hashing (`hash`,
  `compare`), base64url codec (`base64UrlEncode`, `base64UrlDecode` built on
  the platform `btoa`/`atob` primitives, modelled here bit-exactly),
  HMAC signature text construction (`createSignature`), JWT mint/validate
  (`signToken`, `verifyToken`).  The HMAC-SHA-256 and SHA-256 compression
  functions themselves are platform primitives (Web Crypto); they are taken
  as function parameters `mac` / `sha` throughout, so every theorem holds for
  the actual primitive.
* `src/quizmaker-app/src/middleware.ts` — the per-request access gate.

`JSON.stringify` / `JSON.parse` are platform primitives; they are modelled by
`stringifyPayload` (the exact text `JSON.stringify` produces for the payload
objects of this code base, including string escaping and decimal rendering)
and `parsePayloadJson` (`JSON.parse` restricted to the object layout this
code base ever serialises: the three string claims in declaration order with
the two optional numeric timestamp claims).
-/

namespace QuizAuth

/-- Code points of a Lean string literal; used to write JS strings concisely. -/
def S (s : String) : List Char := s.data

/-! ## Decimal rendering (the number part of `JSON.stringify`) and parsing -/

/-- Decimal digit character for a value below 10. -/
def decDigit : Nat → Char
  | 0 => '0' | 1 => '1' | 2 => '2' | 3 => '3' | 4 => '4'
  | 5 => '5' | 6 => '6' | 7 => '7' | 8 => '8' | _ => '9'

/-- Fuel-driven most-significant-first decimal rendering accumulator. -/
def natToDecAux : Nat → Nat → List Char → List Char
  | 0, _, acc => acc
  | f + 1, n, acc =>
    if n = 0 then acc else natToDecAux f (n / 10) (decDigit (n % 10) :: acc)

/-- Decimal rendering of a natural number, as `JSON.stringify` prints a
nonnegative integer. -/
def natToDec (n : Nat) : List Char :=
  if n = 0 then ['0'] else natToDecAux n n []

/-- Boolean test for an ASCII decimal digit. -/
def isDigitCh (c : Char) : Bool := 48 ≤ c.toNat && c.toNat ≤ 57

/-- Greedy decimal-digit consumption with an accumulator, as a JSON number
parser consumes an integer literal. -/
def parseDecAux : List Char → Nat → Nat × List Char
  | [], acc => (acc, [])
  | c :: rest, acc =>
    if isDigitCh c then parseDecAux rest (acc * 10 + (c.toNat - 48)) else (acc, c :: rest)

/-- Parses a nonnegative decimal integer; fails when no digit is present. -/
def parseDecNum : List Char → Option (Nat × List Char)
  | [] => none
  | c :: rest => if isDigitCh c then some (parseDecAux (c :: rest) 0) else none

/-! ## Hexadecimal rendering, as `b.toString(16).padStart(2, '0')` -/

/-- Lowercase hexadecimal digit character for a value below 16. -/
def hexDigit : Nat → Char
  | 0 => '0' | 1 => '1' | 2 => '2' | 3 => '3' | 4 => '4'
  | 5 => '5' | 6 => '6' | 7 => '7' | 8 => '8' | 9 => '9'
  | 10 => 'a' | 11 => 'b' | 12 => 'c' | 13 => 'd' | 14 => 'e' | _ => 'f'

/-- Fuel-driven most-significant-first hexadecimal rendering accumulator. -/
def natToHexAux : Nat → Nat → List Char → List Char
  | 0, _, acc => acc
  | f + 1, n, acc =>
    if n = 0 then acc else natToHexAux f (n / 16) (hexDigit (n % 16) :: acc)

/-- Hexadecimal rendering of a natural number, as `b.toString(16)`. -/
def natToHex (n : Nat) : List Char :=
  if n = 0 then ['0'] else natToHexAux n n []

/-- One byte rendered as exactly two lowercase hex characters, as
`b.toString(16).padStart(2, '0')` in `uint8ArrayToHex`. -/
def byteToHex (b : Nat) : List Char :=
  let h := natToHex b
  if h.length < 2 then '0' :: h else h

/-- Byte array rendered as a lowercase hex string, as `uint8ArrayToHex`. -/
def hexOfBytes (bs : List Nat) : List Char := (bs.map byteToHex).flatten

/-! ## UTF-8 encoding, as `new TextEncoder().encode(str)` -/

/-- UTF-8 byte sequence of a single Unicode code point. -/
def utf8EncodeChar (c : Char) : List Nat :=
  let n := c.toNat
  if n < 128 then [n]
  else if n < 2048 then [192 + n / 64, 128 + n % 64]
  else if n < 65536 then [224 + n / 4096, 128 + n / 64 % 64, 128 + n % 64]
  else [240 + n / 262144, 128 + n / 4096 % 64, 128 + n / 64 % 64, 128 + n % 64]

/-- UTF-8 encoding of a string, as `new TextEncoder().encode(str)` in
`stringToUint8Array` and inside `createSignature` / `hash`. -/
def utf8Encode (s : List Char) : List Nat := (s.map utf8EncodeChar).flatten

/-! ## Base64, as the platform `btoa` / `atob` primitives used by
`base64UrlEncode` / `base64UrlDecode` -/

/-- Standard base64 alphabet in index order. -/
def b64Alphabet : List Char :=
  S "ABCDEFGHIJKLMNOPQRSTUVWXYZabcdefghijklmnopqrstuvwxyz0123456789+/"

/-- Character for a six-bit value (index into the base64 alphabet). -/
def sixToChar (n : Nat) : Char := b64Alphabet.getD n 'A'

/-- Six-bit value of a base64 alphabet character; `none` off the alphabet. -/
def charToSix (c : Char) : Option Nat := b64Alphabet.findIdx? (fun d => d = c)

/-- Base64-encodes a byte list three bytes at a time, emitting four characters
per group and `=` padding for a short final group, exactly as `btoa` does. -/
def encodeChunks : List Nat → List Char
  | [] => []
  | [b1] => [sixToChar (b1 / 4), sixToChar (b1 % 4 * 16), '=', '=']
  | [b1, b2] =>
    [sixToChar (b1 / 4), sixToChar (b1 % 4 * 16 + b2 / 16), sixToChar (b2 % 16 * 4), '=']
  | b1 :: b2 :: b3 :: rest =>
    sixToChar (b1 / 4) :: sixToChar (b1 % 4 * 16 + b2 / 16) ::
      sixToChar (b2 % 16 * 4 + b3 / 64) :: sixToChar (b3 % 64) :: encodeChunks rest

/-- Base64-decodes four characters at a time, accepting `=` padding only at the
end, exactly as `atob` does on padded input; `none` models the exception `atob`
throws on malformed input. -/
def decodeChunks : List Char → Option (List Nat)
  | [] => some []
  | c1 :: c2 :: c3 :: c4 :: rest => do
    let v1 ← charToSix c1
    let v2 ← charToSix c2
    if c3 = '=' then
      if c4 = '=' && rest.isEmpty then some [v1 * 4 + v2 / 16] else none
    else do
      let v3 ← charToSix c3
      if c4 = '=' then
        if rest.isEmpty then some [v1 * 4 + v2 / 16, v2 % 16 * 16 + v3 / 4] else none
      else do
        let v4 ← charToSix c4
        let tail ← decodeChunks rest
        some ((v1 * 4 + v2 / 16) :: (v2 % 16 * 16 + v3 / 4) :: (v3 % 4 * 64 + v4) :: tail)
  | _ => none

/-- Platform `btoa`: fails (throws, modelled as `none`) when a code unit is
outside Latin-1, otherwise base64-encodes the code units as bytes. -/
def btoa (s : List Char) : Option (List Char) :=
  if s.all (fun c => c.toNat < 256) then some (encodeChunks (s.map Char.toNat)) else none

/-- Platform `atob`: base64-decodes and yields one Latin-1 code unit per byte;
`none` models the exception on malformed input. -/
def atob (s : List Char) : Option (List Char) :=
  (decodeChunks s).map (List.map Char.ofNat)

/-- URL-safe substitution applied after `btoa` in `base64UrlEncode`. -/
def urlRepl (c : Char) : Char :=
  if c = '+' then '-' else if c = '/' then '_' else c

/-- Inverse URL-safe substitution applied before `atob` in `base64UrlDecode`. -/
def urlReplInv (c : Char) : Char :=
  if c = '-' then '+' else if c = '_' then '/' else c

/-- Padding restoration loop `while (str.length % 4) str += '='` of
`base64UrlDecode`. -/
def padTo4 (l : List Char) : List Char :=
  l ++ List.replicate ((4 - l.length % 4) % 4) '='

/-- Function `base64UrlEncode` of `crypto-edge.ts`: `btoa`, then `+` to `-`,
`/` to `_`, and `=` removed; `none` when `btoa` throws. -/
def base64UrlEncode (s : List Char) : Option (List Char) :=
  (btoa s).map (fun l => (l.map urlRepl).filter (fun c => c ≠ '='))

/-- Function `base64UrlDecode` of `crypto-edge.ts`: `-` to `+`, `_` to `/`,
padding restored, then `atob`; `none` when `atob` throws. -/
def base64UrlDecode (s : List Char) : Option (List Char) :=
  atob (padTo4 (s.map urlReplInv))

/-! ## JSON text for the payload objects, as `JSON.stringify` / `JSON.parse` -/

/-- JSON escaping of one character, exactly as `JSON.stringify` escapes the
characters of a string value: quote and backslash get a backslash escape, the
five named control characters get their short escapes, the remaining control
characters get a lowercase `\u00XX` escape, and everything else is verbatim. -/
def escChar (c : Char) : List Char :=
  if c = '"' then ['\\', '"']
  else if c = '\\' then ['\\', '\\']
  else if c = Char.ofNat 8 then ['\\', 'b']
  else if c = Char.ofNat 9 then ['\\', 't']
  else if c = Char.ofNat 10 then ['\\', 'n']
  else if c = Char.ofNat 12 then ['\\', 'f']
  else if c = Char.ofNat 13 then ['\\', 'r']
  else if c.toNat < 32 then
    ['\\', 'u', '0', '0', hexDigit (c.toNat / 16), hexDigit (c.toNat % 16)]
  else [c]

/-- JSON escaping of a whole string value. -/
def escString (s : List Char) : List Char := (s.map escChar).flatten

/-- Value of a short backslash escape accepted by `JSON.parse`. -/
def unescChar (c : Char) : Option Char :=
  if c = '"' then some '"'
  else if c = '\\' then some '\\'
  else if c = '/' then some '/'
  else if c = 'b' then some (Char.ofNat 8)
  else if c = 'f' then some (Char.ofNat 12)
  else if c = 'n' then some (Char.ofNat 10)
  else if c = 'r' then some (Char.ofNat 13)
  else if c = 't' then some (Char.ofNat 9)
  else none

/-- Value of a hexadecimal digit character, as `JSON.parse` reads `\uXXXX`. -/
def hexVal (c : Char) : Option Nat :=
  if c = '0' then some 0 else if c = '1' then some 1
  else if c = '2' then some 2 else if c = '3' then some 3
  else if c = '4' then some 4 else if c = '5' then some 5
  else if c = '6' then some 6 else if c = '7' then some 7
  else if c = '8' then some 8 else if c = '9' then some 9
  else if c = 'a' then some 10 else if c = 'b' then some 11
  else if c = 'c' then some 12 else if c = 'd' then some 13
  else if c = 'e' then some 14 else if c = 'f' then some 15
  else if c = 'A' then some 10 else if c = 'B' then some 11
  else if c = 'C' then some 12 else if c = 'D' then some 13
  else if c = 'E' then some 14 else if c = 'F' then some 15
  else none

/-- String-body parser of `JSON.parse`, after the opening quote: consumes
characters and escapes up to the closing quote, returning the decoded content
and the remaining input; raw control characters are rejected, as in JSON. -/
def parseStrAux : List Char → Option (List Char × List Char)
  | [] => none
  | c :: rest =>
    if c = '"' then some ([], rest)
    else if c = '\\' then
      match rest with
      | 'u' :: h1 :: h2 :: h3 :: h4 :: rest2 => do
        let v1 ← hexVal h1
        let v2 ← hexVal h2
        let v3 ← hexVal h3
        let v4 ← hexVal h4
        let (s, r) ← parseStrAux rest2
        some (Char.ofNat (v1 * 4096 + v2 * 256 + v3 * 16 + v4) :: s, r)
      | e :: rest2 => do
        let u ← unescChar e
        let (s, r) ← parseStrAux rest2
        some (u :: s, r)
      | [] => none
    else if c.toNat < 32 then none
    else do
      let (s, r) ← parseStrAux rest
      some (c :: s, r)

/-- Consumes an expected literal text, returning the remaining input. -/
def parseLit : List Char → List Char → Option (List Char)
  | [], rest => some rest
  | _ :: _, [] => none
  | c :: ps, d :: rest => if c = d then parseLit ps rest else none

/-- Interface `JWTPayload` of `crypto-edge.ts`: the three string claims and the
two optional numeric timestamp claims `iat` / `exp`. -/
structure JWTPayload where
  userId : List Char
  email : List Char
  role : List Char
  iat : Option Nat := none
  exp : Option Nat := none
deriving DecidableEq, Repr

/-- Text produced by `JSON.stringify` for a `JWTPayload` object of this code
base: fields in declaration order, absent optional fields omitted. -/
def stringifyPayload (p : JWTPayload) : List Char :=
  S "\x7b\"userId\":\"" ++ escString p.userId ++
    S "\",\"email\":\"" ++ escString p.email ++
    S "\",\"role\":\"" ++ escString p.role ++ S "\"" ++
    (match p.iat with
     | some n => S ",\"iat\":" ++ natToDec n
     | none => []) ++
    (match p.exp with
     | some n => S ",\"exp\":" ++ natToDec n
     | none => []) ++
    S "\x7d"

/-- Parser for exactly the payload texts this code base serialises, modelling
`JSON.parse` followed by the `as JWTPayload` cast: the three string claims in
declaration order, then the optional `iat` and `exp` number claims. -/
def parsePayloadJson (l : List Char) : Option JWTPayload := do
  let r1 ← parseLit (S "\x7b\"userId\":\"") l
  let (uid, r2) ← parseStrAux r1
  let r3 ← parseLit (S ",\"email\":\"") r2
  let (em, r4) ← parseStrAux r3
  let r5 ← parseLit (S ",\"role\":\"") r4
  let (rl, r6) ← parseStrAux r5
  match parseLit (S ",\"iat\":") r6 with
  | some r7 => do
    let (ia, r8) ← parseDecNum r7
    match parseLit (S ",\"exp\":") r8 with
    | some r9 => do
      let (ex, r10) ← parseDecNum r9
      let r11 ← parseLit (S "\x7d") r10
      if r11.isEmpty then some ⟨uid, em, rl, some ia, some ex⟩ else none
    | none => do
      let r9 ← parseLit (S "\x7d") r8
      if r9.isEmpty then some ⟨uid, em, rl, some ia, none⟩ else none
  | none =>
    match parseLit (S ",\"exp\":") r6 with
    | some r7 => do
      let (ex, r8) ← parseDecNum r7
      let r9 ← parseLit (S "\x7d") r8
      if r9.isEmpty then some ⟨uid, em, rl, none, some ex⟩ else none
    | none => do
      let r7 ← parseLit (S "\x7d") r6
      if r7.isEmpty then some ⟨uid, em, rl, none, none⟩ else none

/-! ## Password hashing, functions `hash` and `compare` of `crypto-edge.ts` -/

/-- Function `hash` of `crypto-edge.ts`: UTF-8 encode the password, digest it
with SHA-256 (the Web Crypto primitive, taken as the parameter `sha`), and
render the digest bytes as a lowercase hex string.  No salt enters the
computation: the stored form is a function of the password alone. -/
def hash (sha : List Nat → List Nat) (password : List Char) : List Char :=
  hexOfBytes (sha (utf8Encode password))

/-- Function `compare` of `crypto-edge.ts`: re-hash the candidate password and
test string equality against the stored hash. -/
def compare (sha : List Nat → List Nat) (password storedHash : List Char) : Bool :=
  hash sha password == storedHash

/-! ## String comparison as the JS `!==` operator performs it -/

/-- Short-circuit character-by-character string comparison together with the
number of character comparisons performed: the operational content of the
`signature !== expectedSignature` test in `verifyToken`.  The comparison stops
at the first differing character, so the step count of the first component
depends on where that difference sits. -/
def strCmpSteps : List Char → List Char → Nat × Bool
  | [], [] => (0, true)
  | [], _ :: _ => (0, false)
  | _ :: _, [] => (0, false)
  | a :: s, b :: t =>
    if a = b then
      let r := strCmpSteps s t
      (r.1 + 1, r.2)
    else (1, false)

/-- Boolean string equality as evaluated by the JS engine for `===` / `!==`. -/
def jsStrEq (s t : List Char) : Bool := (strCmpSteps s t).2

/-! ## Signature text, function `createSignature` of `crypto-edge.ts` -/

/-- Function `createSignature` of `crypto-edge.ts`: HMAC-SHA-256 (parameter
`mac`, applied to the UTF-8 bytes of the data and of the secret key), then the
MAC bytes are rendered as a lowercase hex string, and that hex string — not
the raw bytes — is base64url-encoded. -/
def createSignature (mac : List Nat → List Nat → List Nat)
    (data secret : List Char) : Option (List Char) :=
  base64UrlEncode (hexOfBytes (mac (utf8Encode data) (utf8Encode secret)))

/-- Modelled from the spec: the signature scheme §4.2 prescribes, for
comparison with `createSignature` — the raw MAC bytes are base64url-encoded
directly (each byte one Latin-1 code unit), with no hex step. -/
def createSignatureRawB64 (mac : List Nat → List Nat → List Nat)
    (data secret : List Char) : Option (List Char) :=
  base64UrlEncode ((mac (utf8Encode data) (utf8Encode secret)).map Char.ofNat)

/-! ## Token mint and validate, `signToken` / `verifyToken` of
`crypto-edge.ts` -/

/-- Claim set handed to `signToken`: `Omit<JWTPayload, 'iat' | 'exp'>`. -/
structure Claims where
  userId : List Char
  email : List Char
  role : List Char
deriving DecidableEq, Repr

/-- Fixed header object `{alg: 'HS256', typ: 'JWT'}` as `JSON.stringify`
renders it. -/
def headerJson : List Char := S "\x7b\"alg\":\"HS256\",\"typ\":\"JWT\"\x7d"

/-- Function `signToken` of `crypto-edge.ts`, modelled from the point where
`expirationSeconds` has been computed from the `expiresIn` argument (the
source parses `"24h"`-style strings into seconds at lines 112-118; all claims
quantify over the resulting lifetime in seconds).  `now` stands for
`Math.floor(Date.now() / 1000)`; `none` models a `btoa` exception escaping. -/
def signToken (mac : List Nat → List Nat → List Nat) (secret : List Char)
    (now : Nat) (payload : Claims) (expirationSeconds : Nat) :
    Option (List Char) := do
  let fullPayload : JWTPayload :=
    { userId := payload.userId, email := payload.email, role := payload.role,
      iat := some now, exp := some (now + expirationSeconds) }
  let encodedHeader ← base64UrlEncode headerJson
  let encodedPayload ← base64UrlEncode (stringifyPayload fullPayload)
  let data := encodedHeader ++ '.' :: encodedPayload
  let signature ← createSignature mac data secret
  some (data ++ '.' :: signature)

/-- Splitting on `'.'` with the semantics of JS `String.prototype.split('.')`:
the empty string yields one empty part, and separators at the ends yield empty
parts. -/
def splitOnDot (l : List Char) : List (List Char) :=
  match l with
  | [] => [[]]
  | '.' :: rest => [] :: splitOnDot rest
  | c :: rest =>
    match splitOnDot rest with
    | [] => [[c]]
    | p :: ps => (c :: p) :: ps

/-- Distinct reasons for which the body of `verifyToken` can throw, before the
surrounding `catch` collapses them.  The source throws untyped `Error` values;
the constructors record which `throw` site (or which platform primitive)
fired. -/
inductive TokenError where
  /-- Throw site `'Invalid token format'`: the part count was not 3. -/
  | invalidFormat
  /-- Throw site `'Invalid signature'`: provided and recomputed differ. -/
  | invalidSignature
  /-- Platform `atob` threw inside `base64UrlDecode`. -/
  | decodeFailed
  /-- Platform `JSON.parse` threw on the decoded payload text. -/
  | jsonFailed
  /-- Throw site `'Token expired'`: `exp` is truthy and in the past. -/
  | expired
  /-- Platform `btoa` threw inside `createSignature` (unreachable: hex text is
  always Latin-1). -/
  | encodeFailed
deriving DecidableEq, Repr

/-- Body of `verifyToken` of `crypto-edge.ts` (the code inside the `try`):
split, part-count check, signature recomputation and comparison, payload
decode and parse, expiration check.  `now` stands for
`Math.floor(Date.now() / 1000)`. -/
def verifyTokenInner (mac : List Nat → List Nat → List Nat) (secret : List Char)
    (now : Nat) (token : List Char) : Except TokenError JWTPayload :=
  match splitOnDot token with
  | [encodedHeader, encodedPayload, signature] =>
    let data := encodedHeader ++ '.' :: encodedPayload
    match createSignature mac data secret with
    | none => .error .encodeFailed
    | some expectedSignature =>
      if jsStrEq signature expectedSignature then
        match base64UrlDecode encodedPayload with
        | none => .error .decodeFailed
        | some payloadJson =>
          match parsePayloadJson payloadJson with
          | none => .error .jsonFailed
          | some payload =>
            if (match payload.exp with
                | some e => e ≠ 0 && decide (e < now)
                | none => false) then
              .error .expired
            else .ok payload
      else .error .invalidSignature
  | _ => .error .invalidFormat

/-- Function `verifyToken` of `crypto-edge.ts` as its callers see it: the
`catch (error)` block replaces every failure, whatever its reason, by the one
generic `Error('Invalid or expired token')`. -/
def verifyToken (mac : List Nat → List Nat → List Nat) (secret : List Char)
    (now : Nat) (token : List Char) : Except String JWTPayload :=
  match verifyTokenInner mac secret now token with
  | .ok p => .ok p
  | .error _ => .error "Invalid or expired token"

instance {ε α : Type} [DecidableEq ε] [DecidableEq α] : DecidableEq (Except ε α) :=
  fun x y =>
    match x, y with
    | .ok a, .ok b =>
      if h : a = b then isTrue (by rw [h]) else isFalse (by intro hh; cases hh; exact h rfl)
    | .error a, .error b =>
      if h : a = b then isTrue (by rw [h]) else isFalse (by intro hh; cases hh; exact h rfl)
    | .ok _, .error _ => isFalse (by intro h; cases h)
    | .error _, .ok _ => isFalse (by intro h; cases h)

/-! ## Access gate, function `middleware` of `middleware.ts` -/

/-- Terminal outcome of one `middleware` run: plain pass-through
(`NextResponse.next()`), pass-through with the two identity headers attached,
a 401 JSON response, or a redirect; the boolean records whether the response
also deletes the `auth_token` cookie. -/
inductive Decision where
  | next
  | nextWith (userId role : List Char)
  | json401 (clearedCookie : Bool)
  | redirect (target : List Char) (clearedCookie : Bool)
deriving DecidableEq, Repr

/-- Function `middleware` of `middleware.ts`, as a function of the request
path, the `auth_token` cookie value (`none` when the cookie is absent), and
the verifier `ver` (the source calls `verifyToken`, whose result depends only
on the token text given the process secret and clock).  JS truthiness of the
token makes an empty cookie value count as absent. -/
def middleware (ver : List Char → Except String JWTPayload)
    (pathname : List Char) (cookie : Option (List Char)) : Decision :=
  if (S "/api/auth").isPrefixOf pathname || pathname = S "/api/health" then .next
  else
    let isPublicRoute : Bool :=
      pathname = S "/" || pathname = S "/login" || pathname = S "/signup"
    let isApiRoute : Bool := (S "/api/").isPrefixOf pathname
    let hasToken : Bool := match cookie with
      | some t => !t.isEmpty
      | none => false
    if isPublicRoute && !hasToken then .next
    else if isPublicRoute && hasToken &&
        (pathname = S "/login" || pathname = S "/signup") then
      match ver (cookie.getD []) with
      | .ok decoded =>
        .redirect (if decoded.role = S "instructor" then S "/instructor/dashboard"
                   else S "/student/quiz") false
      | .error _ => .next
    else if !hasToken && !isPublicRoute then
      if isApiRoute then .json401 false else .redirect (S "/login") false
    else if hasToken then
      match ver (cookie.getD []) with
      | .ok decoded =>
        if (S "/instructor").isPrefixOf pathname && decoded.role ≠ S "instructor" then
          .redirect (S "/student/quiz") false
        else if (S "/student").isPrefixOf pathname && decoded.role ≠ S "student" then
          .redirect (S "/instructor/dashboard") false
        else .nextWith decoded.userId decoded.role
      | .error _ =>
        if isApiRoute then .json401 true else .redirect (S "/login") true
    else .next

/-! ## Lemmas: base64 codec round-trip -/

theorem sixToChar_mem (n : Nat) : sixToChar n ∈ b64Alphabet := by
  unfold sixToChar
  rw [List.getD_eq_getElem?_getD]
  cases h : b64Alphabet[n]? with
  | none => exact (by decide : 'A' ∈ b64Alphabet)
  | some c => simpa using List.getElem?_mem h

theorem alphabet_ne_pad : ∀ c ∈ b64Alphabet, c ≠ '=' := by decide

theorem sixToChar_ne_pad (n : Nat) : sixToChar n ≠ '=' :=
  alphabet_ne_pad _ (sixToChar_mem n)

theorem urlRepl_inv_alphabet : ∀ c ∈ b64Alphabet, urlReplInv (urlRepl c) = c := by decide

theorem urlRepl_ne_pad : ∀ c ∈ b64Alphabet, urlRepl c ≠ '=' := by decide

theorem charToSix_sixToChar {n : Nat} (h : n < 64) : charToSix (sixToChar n) = some n := by
  have key : ∀ m : Fin 64, charToSix (sixToChar m.val) = some m.val := by decide
  exact key ⟨n, h⟩

theorem decodeChunks_encodeChunks (bs : List Nat) (h : ∀ b ∈ bs, b < 256) :
    decodeChunks (encodeChunks bs) = some bs := by
  induction bs using encodeChunks.induct with
  | case1 => rfl
  | case2 b1 =>
    have hb1 : b1 < 256 := h b1 (by simp)
    have h1 : b1 / 4 < 64 := by omega
    have h2 : b1 % 4 * 16 < 64 := by omega
    simp [encodeChunks, decodeChunks, charToSix_sixToChar h1, charToSix_sixToChar h2]
    omega
  | case3 b1 b2 =>
    have hb1 : b1 < 256 := h b1 (by simp)
    have hb2 : b2 < 256 := h b2 (by simp)
    have h1 : b1 / 4 < 64 := by omega
    have h2 : b1 % 4 * 16 + b2 / 16 < 64 := by omega
    have h3 : b2 % 16 * 4 < 64 := by omega
    simp [encodeChunks, decodeChunks, charToSix_sixToChar h1, charToSix_sixToChar h2,
      charToSix_sixToChar h3, sixToChar_ne_pad]
    constructor <;> omega
  | case4 b1 b2 b3 rest ih =>
    have hb1 : b1 < 256 := h b1 (by simp)
    have hb2 : b2 < 256 := h b2 (by simp)
    have hb3 : b3 < 256 := h b3 (by simp)
    have h1 : b1 / 4 < 64 := by omega
    have h2 : b1 % 4 * 16 + b2 / 16 < 64 := by omega
    have h3 : b2 % 16 * 4 + b3 / 64 < 64 := by omega
    have h4 : b3 % 64 < 64 := by omega
    have ih' := ih (fun b hb => h b (by simp [hb]))
    have step : encodeChunks (b1 :: b2 :: b3 :: rest) =
        sixToChar (b1 / 4) :: sixToChar (b1 % 4 * 16 + b2 / 16) ::
          sixToChar (b2 % 16 * 4 + b3 / 64) :: sixToChar (b3 % 64) :: encodeChunks rest := rfl
    rw [step]
    simp [decodeChunks, charToSix_sixToChar h1, charToSix_sixToChar h2,
      charToSix_sixToChar h3, charToSix_sixToChar h4, sixToChar_ne_pad, ih']
    refine ⟨by omega, by omega, by omega⟩

theorem encodeChunks_mem (bs : List Nat) :
    ∀ c ∈ encodeChunks bs, c ∈ b64Alphabet ∨ c = '=' := by
  induction bs using encodeChunks.induct with
  | case1 => intro c hc; cases hc
  | case2 b1 =>
    intro c hc
    simp only [encodeChunks, List.mem_cons, List.not_mem_nil, or_false] at hc
    rcases hc with rfl | rfl | rfl | rfl
    · exact Or.inl (sixToChar_mem _)
    · exact Or.inl (sixToChar_mem _)
    · exact Or.inr rfl
    · exact Or.inr rfl
  | case3 b1 b2 =>
    intro c hc
    simp only [encodeChunks, List.mem_cons, List.not_mem_nil, or_false] at hc
    rcases hc with rfl | rfl | rfl | rfl
    · exact Or.inl (sixToChar_mem _)
    · exact Or.inl (sixToChar_mem _)
    · exact Or.inl (sixToChar_mem _)
    · exact Or.inr rfl
  | case4 b1 b2 b3 rest ih =>
    intro c hc
    simp only [encodeChunks, List.mem_cons] at hc
    rcases hc with rfl | rfl | rfl | rfl | hc
    · exact Or.inl (sixToChar_mem _)
    · exact Or.inl (sixToChar_mem _)
    · exact Or.inl (sixToChar_mem _)
    · exact Or.inl (sixToChar_mem _)
    · exact ih c hc

theorem padTo4_append_four (a x : List Char) (ha : a.length = 4) :
    padTo4 (a ++ x) = a ++ padTo4 x := by
  unfold padTo4
  rw [List.length_append, ha, List.append_assoc]
  have harith : (4 - (4 + x.length) % 4) % 4 = (4 - x.length % 4) % 4 := by omega
  rw [harith]

theorem padTo4_filter_encodeChunks (bs : List Nat) :
    padTo4 ((encodeChunks bs).filter (fun c => c ≠ '=')) = encodeChunks bs := by
  induction bs using encodeChunks.induct with
  | case1 => rfl
  | case2 b1 =>
    simp only [encodeChunks, List.filter]
    rw [decide_eq_true (sixToChar_ne_pad (b1 / 4)),
      decide_eq_true (sixToChar_ne_pad (b1 % 4 * 16))]
    rfl
  | case3 b1 b2 =>
    simp only [encodeChunks, List.filter]
    rw [decide_eq_true (sixToChar_ne_pad (b1 / 4)),
      decide_eq_true (sixToChar_ne_pad (b1 % 4 * 16 + b2 / 16)),
      decide_eq_true (sixToChar_ne_pad (b2 % 16 * 4))]
    rfl
  | case4 b1 b2 b3 rest ih =>
    have step : encodeChunks (b1 :: b2 :: b3 :: rest) =
        [sixToChar (b1 / 4), sixToChar (b1 % 4 * 16 + b2 / 16),
          sixToChar (b2 % 16 * 4 + b3 / 64), sixToChar (b3 % 64)] ++ encodeChunks rest := rfl
    rw [step, List.filter_append]
    have hfour : ([sixToChar (b1 / 4), sixToChar (b1 % 4 * 16 + b2 / 16),
        sixToChar (b2 % 16 * 4 + b3 / 64), sixToChar (b3 % 64)].filter
          (fun c => c ≠ '=')) =
        [sixToChar (b1 / 4), sixToChar (b1 % 4 * 16 + b2 / 16),
          sixToChar (b2 % 16 * 4 + b3 / 64), sixToChar (b3 % 64)] := by
      simp only [List.filter]
      rw [decide_eq_true (sixToChar_ne_pad (b1 / 4)),
        decide_eq_true (sixToChar_ne_pad (b1 % 4 * 16 + b2 / 16)),
        decide_eq_true (sixToChar_ne_pad (b2 % 16 * 4 + b3 / 64)),
        decide_eq_true (sixToChar_ne_pad (b3 % 64))]
    rw [hfour, padTo4_append_four _ _ (by simp), ih]

theorem urlRepl_prep (l : List Char) (h : ∀ c ∈ l, c ∈ b64Alphabet ∨ c = '=') :
    ((l.map urlRepl).filter (fun c => c ≠ '=')).map urlReplInv =
      l.filter (fun c => c ≠ '=') := by
  induction l with
  | nil => rfl
  | cons c cs ih =>
    have ih' := ih (fun d hd => h d (List.mem_cons_of_mem c hd))
    rcases h c (List.mem_cons_self c cs) with hc | hc
    · simp only [List.map_cons, List.filter]
      rw [decide_eq_true (urlRepl_ne_pad c hc), decide_eq_true (alphabet_ne_pad c hc)]
      simp only [List.map_cons, urlRepl_inv_alphabet c hc, ih']
    · subst hc
      have hpad : urlRepl '=' = '=' := rfl
      simp only [List.map_cons, hpad, List.filter]
      exact ih'

theorem base64UrlDecode_encode {s e : List Char} (h : base64UrlEncode s = some e) :
    base64UrlDecode e = some s := by
  unfold base64UrlEncode btoa at h
  by_cases hall : s.all (fun c => c.toNat < 256)
  · rw [if_pos hall, Option.map_some'] at h
    have hbytes : ∀ b ∈ s.map Char.toNat, b < 256 := by
      intro b hb
      rcases List.mem_map.mp hb with ⟨c, hc, rfl⟩
      exact of_decide_eq_true (List.all_eq_true.mp hall c hc)
    have he : e = ((encodeChunks (s.map Char.toNat)).map urlRepl).filter
        (fun c => c ≠ '=') := (Option.some.inj h).symm
    subst he
    unfold base64UrlDecode atob
    rw [urlRepl_prep _ (encodeChunks_mem _), padTo4_filter_encodeChunks,
      decodeChunks_encodeChunks _ hbytes, Option.map_some']
    congr 1
    rw [List.map_map]
    exact (List.map_congr_left (fun c _ => Char.ofNat_toNat c)).trans (List.map_id s)
  · rw [if_neg hall] at h
    cases h

/-! ## Lemmas: base64url text never contains a dot, and dot-splitting -/

theorem urlRepl_ne_dot : ∀ c ∈ b64Alphabet, urlRepl c ≠ '.' := by decide

theorem base64UrlEncode_no_dot {s e : List Char} (h : base64UrlEncode s = some e) :
    '.' ∉ e := by
  unfold base64UrlEncode btoa at h
  by_cases hall : s.all (fun c => c.toNat < 256)
  · rw [if_pos hall, Option.map_some'] at h
    have he : e = ((encodeChunks (s.map Char.toNat)).map urlRepl).filter
        (fun c => c ≠ '=') := (Option.some.inj h).symm
    subst he
    intro hmem
    have hmem' := List.mem_of_mem_filter hmem
    rcases List.mem_map.mp hmem' with ⟨c, hc, hrepl⟩
    rcases encodeChunks_mem _ c hc with hca | hcp
    · exact urlRepl_ne_dot c hca hrepl
    · subst hcp
      exact absurd hrepl (by decide)
  · rw [if_neg hall] at h
    cases h

theorem splitOnDot_no_dot {c : List Char} (hc : '.' ∉ c) : splitOnDot c = [c] := by
  induction c with
  | nil => rfl
  | cons x rest ih =>
    have hx : x = '.' → False := fun h => hc (by rw [h]; exact List.mem_cons_self _ _)
    have hrest : '.' ∉ rest := fun h => hc (List.mem_cons_of_mem x h)
    rw [splitOnDot.eq_3 x rest hx, ih hrest]

theorem splitOnDot_append {b : List Char} (l : List Char) (hb : '.' ∉ b) :
    splitOnDot (b ++ '.' :: l) = b :: splitOnDot l := by
  induction b with
  | nil => rfl
  | cons x rest ih =>
    have hx : x = '.' → False := fun h => hb (by rw [h]; exact List.mem_cons_self _ _)
    have hrest : '.' ∉ rest := fun h => hb (List.mem_cons_of_mem x h)
    rw [List.cons_append, splitOnDot.eq_3 x _ hx, ih hrest]

theorem splitOnDot_three {a b c : List Char} (ha : '.' ∉ a) (hb : '.' ∉ b)
    (hc : '.' ∉ c) : splitOnDot (a ++ '.' :: (b ++ '.' :: c)) = [a, b, c] := by
  rw [splitOnDot_append _ ha, splitOnDot_append _ hb, splitOnDot_no_dot hc]

/-! ## Lemmas: decimal round-trip -/

/-- Accumulation step of `parseDecAux`, named for the statements below. -/
def decStep (a : Nat) (c : Char) : Nat := a * 10 + (c.toNat - 48)

theorem natToDecAux_zero (f : Nat) (acc : List Char) : natToDecAux f 0 acc = acc := by
  cases f <;> rfl

theorem natToDecAux_acc : ∀ (n f : Nat) (acc : List Char), n ≤ f →
    natToDecAux f n acc = natToDecAux n n [] ++ acc := by
  intro n
  induction n using Nat.strong_induction_on with
  | _ n ih =>
    intro f acc hf
    cases n with
    | zero => rw [natToDecAux_zero, natToDecAux_zero]; rfl
    | succ m =>
      obtain ⟨f', rfl⟩ : ∃ f', f = f' + 1 := ⟨f - 1, by omega⟩
      have hq : (m + 1) / 10 < m + 1 := by omega
      rw [natToDecAux, if_neg (Nat.succ_ne_zero m),
        ih ((m + 1) / 10) hq f' _ (by omega)]
      conv_rhs =>
        rw [natToDecAux, if_neg (Nat.succ_ne_zero m),
          ih ((m + 1) / 10) hq m _ (by omega)]
      rw [List.append_assoc]
      rfl

theorem decDigit_isDigit {m : Nat} (h : m < 10) : isDigitCh (decDigit m) = true := by
  interval_cases m <;> rfl

theorem decDigit_val {m : Nat} (h : m < 10) : (decDigit m).toNat - 48 = m := by
  interval_cases m <;> rfl

theorem natToDec_digits : ∀ (n : Nat), ∀ c ∈ natToDec n, isDigitCh c = true := by
  have aux : ∀ (n f : Nat) (acc : List Char), n ≤ f →
      (∀ c ∈ acc, isDigitCh c = true) → ∀ c ∈ natToDecAux f n acc, isDigitCh c = true := by
    intro n
    induction n using Nat.strong_induction_on with
    | _ n ih =>
      intro f acc hf hacc
      cases n with
      | zero => rw [natToDecAux_zero]; exact hacc
      | succ m =>
        obtain ⟨f', rfl⟩ : ∃ f', f = f' + 1 := ⟨f - 1, by omega⟩
        rw [natToDecAux, if_neg (Nat.succ_ne_zero m)]
        refine ih ((m + 1) / 10) (by omega) f' _ (by omega) ?_
        intro c hcm
        rcases List.mem_cons.mp hcm with rfl | hcm
        · exact decDigit_isDigit (by omega)
        · exact hacc c hcm
  intro n c hc
  unfold natToDec at hc
  by_cases hn : n = 0
  · subst hn
    simp at hc
    subst hc
    rfl
  · rw [if_neg hn] at hc
    exact aux n n [] le_rfl (by intro c h; cases h) c hc

theorem natToDec_ne_nil (n : Nat) : natToDec n ≠ [] := by
  unfold natToDec
  by_cases hn : n = 0
  · subst hn; simp
  · rw [if_neg hn]
    obtain ⟨m, rfl⟩ : ∃ m, n = m + 1 := ⟨n - 1, by omega⟩
    rw [natToDecAux, if_neg (Nat.succ_ne_zero m),
      natToDecAux_acc ((m + 1) / 10) m _ (by omega)]
    simp

theorem foldl_natToDec : ∀ (n : Nat) (acc : Nat),
    List.foldl decStep acc (natToDecAux n n []) =
      acc * 10 ^ (natToDecAux n n []).length + n := by
  intro n
  induction n using Nat.strong_induction_on with
  | _ n ih =>
    intro acc
    cases n with
    | zero => rw [natToDecAux_zero]; simp
    | succ m =>
      have hq : (m + 1) / 10 < m + 1 := by omega
      rw [natToDecAux, if_neg (Nat.succ_ne_zero m),
        natToDecAux_acc ((m + 1) / 10) m _ (by omega), List.foldl_append,
        ih ((m + 1) / 10) hq acc]
      rw [List.length_append]
      simp only [List.foldl_cons, List.foldl_nil, List.length_cons, List.length_nil]
      unfold decStep
      rw [decDigit_val (by omega)]
      have hmod : (m + 1) / 10 * 10 + (m + 1) % 10 = m + 1 := by omega
      rw [pow_succ]
      ring_nf
      omega

theorem parseDecAux_spec : ∀ (ds rest : List Char) (acc : Nat),
    (∀ c ∈ ds, isDigitCh c = true) →
    (∀ c, rest.head? = some c → isDigitCh c = false) →
    parseDecAux (ds ++ rest) acc = (List.foldl decStep acc ds, rest) := by
  intro ds
  induction ds with
  | nil =>
    intro rest acc _ hrest
    cases rest with
    | nil => rfl
    | cons c r =>
      simp only [List.nil_append, parseDecAux, hrest c rfl, List.foldl_nil]
      rw [if_neg (by simp [hrest c rfl])]
  | cons d ds ih =>
    intro rest acc hds hrest
    simp only [List.cons_append, parseDecAux, List.foldl_cons]
    rw [if_pos (hds d (List.mem_cons_self d ds))]
    exact ih rest _ (fun c hc => hds c (List.mem_cons_of_mem d hc)) hrest

theorem parseDecNum_natToDec (n : Nat) (rest : List Char)
    (hrest : ∀ c, rest.head? = some c → isDigitCh c = false) :
    parseDecNum (natToDec n ++ rest) = some (n, rest) := by
  have hfold : List.foldl decStep 0 (natToDec n) = n := by
    unfold natToDec
    by_cases hn : n = 0
    · subst hn; rfl
    · rw [if_neg hn]
      rw [foldl_natToDec n 0]
      simp
  cases hsh : natToDec n with
  | nil => exact absurd hsh (natToDec_ne_nil n)
  | cons d ds =>
    have hd : isDigitCh d = true := natToDec_digits n d (by rw [hsh]; simp)
    have hall : ∀ c ∈ d :: ds, isDigitCh c = true := by
      intro c hc
      exact natToDec_digits n c (by rw [hsh]; exact hc)
    simp only [List.cons_append, parseDecNum, hd, if_true]
    rw [show d :: (ds ++ rest) = (d :: ds) ++ rest from rfl,
      parseDecAux_spec (d :: ds) rest 0 hall hrest, ← hsh, hfold]

/-! ## Lemmas: JSON string escaping round-trip -/

theorem hexVal_hexDigit {m : Nat} (h : m < 16) : hexVal (hexDigit m) = some m := by
  interval_cases m <;> rfl

theorem parseStrAux_escString : ∀ (s rest : List Char),
    parseStrAux (escString s ++ '"' :: rest) = some (s, rest) := by
  intro s
  induction s with
  | nil =>
    intro rest
    show parseStrAux ('"' :: rest) = some ([], rest)
    rw [parseStrAux.eq_def]
    simp
  | cons c cs ih =>
    intro rest
    have hstep : escString (c :: cs) ++ '"' :: rest =
        escChar c ++ (escString cs ++ '"' :: rest) := by
      simp [escString]
    rw [hstep]
    by_cases h1 : c = '"'
    · subst h1
      have he : escChar '"' = ['\\', '"'] := rfl
      rw [he]
      simp only [List.cons_append, List.nil_append]
      rw [parseStrAux.eq_def]
      simp [unescChar, ih]
    by_cases h2 : c = '\\'
    · subst h2
      have he : escChar '\\' = ['\\', '\\'] := rfl
      rw [he]
      simp only [List.cons_append, List.nil_append]
      rw [parseStrAux.eq_def]
      simp [unescChar, ih]
    by_cases h3 : c = Char.ofNat 8
    · subst h3
      have he : escChar (Char.ofNat 8) = ['\\', 'b'] := rfl
      rw [he]
      simp only [List.cons_append, List.nil_append]
      rw [parseStrAux.eq_def]
      simp [unescChar, ih]
    by_cases h4 : c = Char.ofNat 9
    · subst h4
      have he : escChar (Char.ofNat 9) = ['\\', 't'] := rfl
      rw [he]
      simp only [List.cons_append, List.nil_append]
      rw [parseStrAux.eq_def]
      simp [unescChar, ih]
    by_cases h5 : c = Char.ofNat 10
    · subst h5
      have he : escChar (Char.ofNat 10) = ['\\', 'n'] := rfl
      rw [he]
      simp only [List.cons_append, List.nil_append]
      rw [parseStrAux.eq_def]
      simp [unescChar, ih]
    by_cases h6 : c = Char.ofNat 12
    · subst h6
      have he : escChar (Char.ofNat 12) = ['\\', 'f'] := rfl
      rw [he]
      simp only [List.cons_append, List.nil_append]
      rw [parseStrAux.eq_def]
      simp [unescChar, ih]
    by_cases h7 : c = Char.ofNat 13
    · subst h7
      have he : escChar (Char.ofNat 13) = ['\\', 'r'] := rfl
      rw [he]
      simp only [List.cons_append, List.nil_append]
      rw [parseStrAux.eq_def]
      simp [unescChar, ih]
    by_cases h8 : c.toNat < 32
    · have he : escChar c =
          ['\\', 'u', '0', '0', hexDigit (c.toNat / 16), hexDigit (c.toNat % 16)] := by
        simp [escChar, h1, h2, h3, h4, h5, h6, h7, h8]
      rw [he]
      have hv1 : hexVal (hexDigit (c.toNat / 16)) = some (c.toNat / 16) :=
        hexVal_hexDigit (by omega)
      have hv2 : hexVal (hexDigit (c.toNat % 16)) = some (c.toNat % 16) :=
        hexVal_hexDigit (by omega)
      have hcode : c.toNat / 16 * 16 + c.toNat % 16 = c.toNat := by omega
      have h0 : hexVal '0' = some 0 := rfl
      simp only [List.cons_append, List.nil_append]
      rw [parseStrAux.eq_def]
      simp [h0, hv1, hv2, ih, hcode, Char.ofNat_toNat]
    · have he : escChar c = [c] := by
        simp [escChar, h1, h2, h3, h4, h5, h6, h7, h8]
      rw [he]
      simp only [List.cons_append, List.nil_append]
      rw [parseStrAux.eq_def]
      simp [h1, h2, h8, ih]

/-! ## Lemmas: payload JSON round-trip -/
theorem parseLit_append : ∀ (ps rest : List Char), parseLit ps (ps ++ rest) = some rest := by
  intro ps
  induction ps with
  | nil => intro rest; rfl
  | cons c ps ih =>
    intro rest
    simp [parseLit, ih]

theorem nondigit_head {d : Char} {l X : List Char} (hd : isDigitCh d = false) :
    ∀ c, ((d :: l) ++ X).head? = some c → isDigitCh c = false := by
  intro c hc
  rw [show ((d :: l) ++ X).head? = some d from rfl] at hc
  cases hc
  exact hd

theorem parsePayloadJson_stringify (p : JWTPayload) :
    parsePayloadJson (stringifyPayload p) = some p := by
  obtain ⟨uid, em, rl, ia, ex⟩ := p
  have q1 : ∀ Y : List Char, S "\",\"email\":\"" ++ Y = '"' :: (S ",\"email\":\"" ++ Y) :=
    fun _ => rfl
  have q2 : ∀ Y : List Char, S "\",\"role\":\"" ++ Y = '"' :: (S ",\"role\":\"" ++ Y) :=
    fun _ => rfl
  have q3 : ∀ Y : List Char, S "\"" ++ Y = '"' :: Y := fun _ => rfl
  have hfin : parseLit (S "\x7d") (S "\x7d") = some [] := rfl
  have hbrace : ∀ c : Char, (S "\x7d").head? = some c → isDigitCh c = false := by
    intro c hc
    rw [show (S "\x7d").head? = some '\x7d' from rfl] at hc
    cases hc
    rfl
  cases ia with
  | some ia' =>
    cases ex with
    | some ex' =>
      have hd1 : parseDecNum (natToDec ia' ++ (S ",\"exp\":" ++ (natToDec ex' ++ S "\x7d"))) =
          some (ia', S ",\"exp\":" ++ (natToDec ex' ++ S "\x7d")) :=
        parseDecNum_natToDec _ _ (nondigit_head rfl)
      have hd2 : parseDecNum (natToDec ex' ++ S "\x7d") = some (ex', S "\x7d") :=
        parseDecNum_natToDec _ _ hbrace
      show parsePayloadJson (stringifyPayload ⟨uid, em, rl, some ia', some ex'⟩) = _
      simp only [stringifyPayload, q1, q2, q3, List.cons_append, List.append_assoc, List.nil_append,
        parsePayloadJson, parseLit_append, parseStrAux_escString, hd1, hd2, hfin,
        Option.bind_eq_bind, Option.some_bind, List.isEmpty_nil, if_true]
    | none =>
      have hd1 : parseDecNum (natToDec ia' ++ S "\x7d") = some (ia', S "\x7d") :=
        parseDecNum_natToDec _ _ hbrace
      have hmiss : parseLit (S ",\"exp\":") (S "\x7d") = none := rfl
      show parsePayloadJson (stringifyPayload ⟨uid, em, rl, some ia', none⟩) = _
      simp only [stringifyPayload, q1, q2, q3, List.cons_append, List.append_assoc, List.nil_append,
        parsePayloadJson, parseLit_append, parseStrAux_escString, hd1, hmiss, hfin,
        Option.bind_eq_bind, Option.some_bind, List.isEmpty_nil, if_true]
  | none =>
    cases ex with
    | some ex' =>
      have hd2 : parseDecNum (natToDec ex' ++ S "\x7d") = some (ex', S "\x7d") :=
        parseDecNum_natToDec _ _ hbrace
      have hmiss : ∀ Y : List Char,
          parseLit (S ",\"iat\":") (S ",\"exp\":" ++ Y) = none := fun _ => rfl
      show parsePayloadJson (stringifyPayload ⟨uid, em, rl, none, some ex'⟩) = _
      simp only [stringifyPayload, q1, q2, q3, List.cons_append, List.append_assoc, List.nil_append,
        parsePayloadJson, parseLit_append, parseStrAux_escString, hd2, hmiss, hfin,
        Option.bind_eq_bind, Option.some_bind, List.isEmpty_nil, if_true]
    | none =>
      have hmiss1 : parseLit (S ",\"iat\":") (S "\x7d") = none := rfl
      have hmiss2 : parseLit (S ",\"exp\":") (S "\x7d") = none := rfl
      show parsePayloadJson (stringifyPayload ⟨uid, em, rl, none, none⟩) = _
      simp only [stringifyPayload, q1, q2, q3, List.cons_append, List.append_assoc, List.nil_append,
        parsePayloadJson, parseLit_append, parseStrAux_escString, hmiss1, hmiss2, hfin,
        Option.bind_eq_bind, Option.some_bind, List.isEmpty_nil, if_true]

/-! ## Lemmas: signature text and token validation -/

theorem strCmpSteps_self (s : List Char) : (strCmpSteps s s).2 = true := by
  induction s with
  | nil => rfl
  | cons a t ih => simp [strCmpSteps, ih]

theorem jsStrEq_refl (s : List Char) : jsStrEq s s = true := strCmpSteps_self s

theorem hexDigit_latin1 (m : Nat) : (hexDigit m).toNat < 256 := by
  unfold hexDigit
  split <;> decide

theorem natToHexAux_latin1 : ∀ (n f : Nat) (acc : List Char),
    (∀ c ∈ acc, c.toNat < 256) → ∀ c ∈ natToHexAux f n acc, c.toNat < 256 := by
  intro n
  induction n using Nat.strong_induction_on with
  | _ n ih =>
    intro f acc hacc
    cases f with
    | zero => exact hacc
    | succ f' =>
      by_cases hn : n = 0
      · subst hn
        rw [natToHexAux, if_pos rfl]
        exact hacc
      · rw [natToHexAux, if_neg hn]
        refine ih (n / 16) (by omega) f' _ ?_
        intro c hcm
        rcases List.mem_cons.mp hcm with rfl | hcm
        · exact hexDigit_latin1 _
        · exact hacc c hcm

theorem hexOfBytes_latin1 (bs : List Nat) : ∀ c ∈ hexOfBytes bs, c.toNat < 256 := by
  intro c hc
  unfold hexOfBytes at hc
  rcases List.mem_flatten.mp hc with ⟨l, hl, hcl⟩
  rcases List.mem_map.mp hl with ⟨b, _, rfl⟩
  unfold byteToHex at hcl
  have hnat : ∀ d ∈ natToHex b, d.toNat < 256 := by
    intro d hd
    unfold natToHex at hd
    by_cases hb : b = 0
    · subst hb
      simp at hd
      subst hd
      decide
    · rw [if_neg hb] at hd
      exact natToHexAux_latin1 b b [] (by intro d h; cases h) d hd
  by_cases hlen : (natToHex b).length < 2
  · simp only [if_pos hlen] at hcl
    rcases List.mem_cons.mp hcl with rfl | hcl
    · decide
    · exact hnat c hcl
  · simp only [if_neg hlen] at hcl
    exact hnat c hcl

theorem createSignature_some (mac : List Nat → List Nat → List Nat)
    (data secret : List Char) :
    createSignature mac data secret =
      some (((encodeChunks ((hexOfBytes (mac (utf8Encode data) (utf8Encode secret))).map
        Char.toNat)).map urlRepl).filter (fun c => c ≠ '=')) := by
  unfold createSignature base64UrlEncode btoa
  rw [if_pos (List.all_eq_true.mpr
    (fun c hc => decide_eq_true (hexOfBytes_latin1 _ c hc)))]
  rfl

/-- Shared shape lemma: a three-part token whose middle part encodes a payload
JSON and whose third part is the recomputed signature validates to exactly that
payload, provided the expiry test comes out false. -/
theorem verifyTokenInner_of_parts (mac : List Nat → List Nat → List Nat)
    (secret : List Char) (now : Nat) (eh ep sig : List Char) (p : JWTPayload)
    (heh : '.' ∉ eh)
    (hep : base64UrlEncode (stringifyPayload p) = some ep)
    (hsig : createSignature mac (eh ++ '.' :: ep) secret = some sig)
    (hexp : (match p.exp with
             | some e => e ≠ 0 && decide (e < now)
             | none => false) = false) :
    verifyTokenInner mac secret now (eh ++ '.' :: (ep ++ '.' :: sig)) = .ok p := by
  have hepd : '.' ∉ ep := base64UrlEncode_no_dot hep
  have hsigd : '.' ∉ sig := base64UrlEncode_no_dot (by
    rw [createSignature_some] at hsig
    exact (Option.some.inj hsig) ▸ createSignature_some mac (eh ++ '.' :: ep) secret)
  simp only [verifyTokenInner, splitOnDot_three heh hepd hsigd, hsig, jsStrEq_refl,
    base64UrlDecode_encode hep, parsePayloadJson_stringify, hexp, if_true,
    Bool.false_eq_true, if_false]

/-! ## Concrete stand-ins for the Web Crypto primitives, used to evaluate the
theorems on explicit inputs -/

/-- Concrete computable stand-in for the HMAC-SHA-256 primitive. -/
def demoMac : List Nat → List Nat → List Nat :=
  fun d k => [(d.length + 2 * k.length) % 256, 171]

/-- Concrete computable stand-in for the SHA-256 primitive. -/
def demoSha : List Nat → List Nat := fun d => [d.length % 256, 7]

/-- Concrete process secret. -/
def demoSecret : List Char := S "s"

/-- Concrete claim set. -/
def demoClaims : Claims := ⟨S "u1", S "a@b", S "student"⟩

/-! ## Claim C1 — mint/validate round-trip -/

/-- C1: for every valid claim set C (one `signToken` actually mints a token
from, i.e. the `btoa` encoding step succeeds) and every lifetime L > 0,
validating the token minted from C with lifetime L succeeds and returns a
payload whose subject id, email and role equal C's, and whose `exp` minus
`iat` equals L. -/
theorem c1_round_trip (mac : List Nat → List Nat → List Nat) (secret : List Char)
    (now L : Nat) (claims : Claims) (tok : List Char) (hL : 0 < L)
    (h : signToken mac secret now claims L = some tok) :
    verifyToken mac secret now tok =
      .ok { userId := claims.userId, email := claims.email, role := claims.role,
            iat := some now, exp := some (now + L) } ∧ (now + L) - now = L := by
  refine ⟨?_, by omega⟩
  unfold signToken at h
  simp only [Option.bind_eq_bind] at h
  rw [Option.bind_eq_some] at h
  obtain ⟨eh, hH, h⟩ := h
  rw [Option.bind_eq_some] at h
  obtain ⟨ep, hP, h⟩ := h
  rw [Option.bind_eq_some] at h
  obtain ⟨sig, hS, h⟩ := h
  obtain rfl : (eh ++ '.' :: ep) ++ '.' :: sig = tok := Option.some.inj h
  have hshape : (eh ++ '.' :: ep) ++ '.' :: sig = eh ++ '.' :: (ep ++ '.' :: sig) := by
    simp [List.append_assoc]
  have hexp : (decide (now + L ≠ 0) && decide (now + L < now)) = false := by
    have : ¬(now + L < now) := by omega
    simp [this]
  unfold verifyToken
  rw [hshape, verifyTokenInner_of_parts mac secret now eh ep sig _
    (base64UrlEncode_no_dot hH) hP hS hexp]

set_option maxRecDepth 1000000 in
/-- Witness for C1 at concrete inputs. -/
theorem c1_round_trip_witness :
    verifyToken demoMac demoSecret 5 ((signToken demoMac demoSecret 5 demoClaims 60).getD [])
        = .ok ⟨S "u1", S "a@b", S "student", some 5, some 65⟩ ∧ 65 - 5 = 60 :=
  c1_round_trip demoMac demoSecret 5 60 demoClaims _ (by decide) (by decide)

/-! ## Claim C2 — error taxonomy surfaced to callers -/

/-- Expired but correctly signed token: minted at time 1 with lifetime 1. -/
def demoExpiredTok : List Char := (signToken demoMac demoSecret 1 demoClaims 1).getD []

set_option maxRecDepth 1000000 in
/-- C2 counterexample: the empty string fails the part-count (malformed) check
and `demoExpiredTok` fails the expiry check — two different failure reasons —
yet `verifyToken` surfaces the very same generic error for both, so a caller
cannot distinguish which kind occurred. -/
theorem c2_counterexample :
    verifyTokenInner demoMac demoSecret 100 (S "") = .error .invalidFormat ∧
    verifyTokenInner demoMac demoSecret 100 demoExpiredTok = .error .expired ∧
    verifyToken demoMac demoSecret 100 (S "") =
      verifyToken demoMac demoSecret 100 demoExpiredTok := by
  refine ⟨by decide, by decide, by decide⟩

/-- C2 amended: the body of `verifyToken` distinguishes the failure stages
(format, signature, decode, parse, expiry) internally, but the surrounding
`catch` maps every failing input to the one generic error, so any two failing
inputs — whatever their reasons — are indistinguishable to the caller. -/
theorem c2_collapse (mac : List Nat → List Nat → List Nat) (secret : List Char)
    (now : Nat) (t1 t2 : List Char) (e1 e2 : TokenError)
    (h1 : verifyTokenInner mac secret now t1 = .error e1)
    (h2 : verifyTokenInner mac secret now t2 = .error e2) :
    verifyToken mac secret now t1 = .error "Invalid or expired token" ∧
    verifyToken mac secret now t1 = verifyToken mac secret now t2 := by
  unfold verifyToken
  rw [h1, h2]
  exact ⟨rfl, rfl⟩

set_option maxRecDepth 1000000 in
/-- Witness for C2 amended at concrete inputs. -/
theorem c2_collapse_witness :
    verifyToken demoMac demoSecret 100 (S "") = .error "Invalid or expired token" ∧
    verifyToken demoMac demoSecret 100 (S "") =
      verifyToken demoMac demoSecret 100 demoExpiredTok :=
  c2_collapse demoMac demoSecret 100 (S "") demoExpiredTok
    .invalidFormat .expired (by decide) (by decide)

/-! ## Claim C3 — malformed part counts -/

set_option maxRecDepth 1000000 in
/-- C3 counterexample: the input `".."` splits into exactly 3 parts that are
all empty — so by the claim it should fail with the malformed-token error —
but the part-count check `parts.length !== 3` passes and validation fails at
the signature stage instead. -/
theorem c3_counterexample :
    (splitOnDot (S "..")).length = 3 ∧
    (∃ p ∈ splitOnDot (S ".."), p = []) ∧
    verifyTokenInner demoMac demoSecret 0 (S "..") = .error .invalidSignature := by
  refine ⟨rfl, ⟨[], by decide⟩, by decide⟩

/-- C3 amended: every input whose dot-split does not have exactly 3 parts —
parts may be empty — fails at the format check, before any signature or expiry
consideration; in particular `"not.a.token.four.parts"`, `""` and `"a.b"` do.
(An input with exactly 3 parts, even empty ones, passes this check.) -/
theorem c3_format_stage (mac : List Nat → List Nat → List Nat) (secret : List Char)
    (now : Nat) (t : List Char) (h : (splitOnDot t).length ≠ 3) :
    verifyTokenInner mac secret now t = .error .invalidFormat := by
  unfold verifyTokenInner
  generalize splitOnDot t = l at h ⊢
  rcases l with _ | ⟨a, l⟩
  · rfl
  rcases l with _ | ⟨b, l⟩
  · rfl
  rcases l with _ | ⟨c, l⟩
  · rfl
  rcases l with _ | ⟨d, l⟩
  · exact absurd rfl h
  rfl

/-- Witness for C3 amended at the three inputs named by the claim. -/
theorem c3_format_stage_witness :
    verifyTokenInner demoMac demoSecret 0 (S "not.a.token.four.parts") =
      .error .invalidFormat ∧
    verifyTokenInner demoMac demoSecret 0 (S "") = .error .invalidFormat ∧
    verifyTokenInner demoMac demoSecret 0 (S "a.b") = .error .invalidFormat :=
  ⟨c3_format_stage demoMac demoSecret 0 (S "not.a.token.four.parts") (by decide),
   c3_format_stage demoMac demoSecret 0 (S "") (by decide),
   c3_format_stage demoMac demoSecret 0 (S "a.b") (by decide)⟩

/-! ## Claim C4 — payloads without timestamps -/

/-- Payload carrying no `iat` and no `exp` claim. -/
def demoNoExpPayload : JWTPayload := ⟨S "u", S "e", S "x", none, none⟩

/-- Correctly signed token whose payload lacks both timestamps. -/
def demoNoExpTok : List Char :=
  (base64UrlEncode headerJson).getD [] ++ '.' ::
    ((base64UrlEncode (stringifyPayload demoNoExpPayload)).getD [] ++ '.' ::
      (createSignature demoMac
        ((base64UrlEncode headerJson).getD [] ++ '.' ::
          (base64UrlEncode (stringifyPayload demoNoExpPayload)).getD [])
        demoSecret).getD [])

set_option maxRecDepth 1000000 in
/-- C4 counterexample: a correctly signed token whose payload lacks both
`iat` and `exp` is accepted by validation (even at an arbitrarily late clock
value), not rejected: the expiry check `payload.exp && payload.exp < now` is
simply skipped when `exp` is absent. -/
theorem c4_counterexample :
    verifyTokenInner demoMac demoSecret 999999 demoNoExpTok = .ok demoNoExpPayload := by
  decide

/-- C4 amended: every correctly signed three-part token whose payload lacks
`exp` (with or without `iat`) is accepted by `verifyToken` at every clock
value — a missing expiry timestamp yields a never-expiring token, the expiry
check being skipped for a missing (or zero) `exp`. -/
theorem c4_missing_exp_accepted (mac : List Nat → List Nat → List Nat)
    (secret : List Char) (now : Nat) (eh ep sig : List Char) (p : JWTPayload)
    (hexp : p.exp = none) (heh : '.' ∉ eh)
    (hep : base64UrlEncode (stringifyPayload p) = some ep)
    (hsig : createSignature mac (eh ++ '.' :: ep) secret = some sig) :
    verifyToken mac secret now (eh ++ '.' :: (ep ++ '.' :: sig)) = .ok p := by
  unfold verifyToken
  rw [verifyTokenInner_of_parts mac secret now eh ep sig p heh hep hsig (by rw [hexp])]

set_option maxRecDepth 1000000 in
/-- Witness for C4 amended at concrete inputs. -/
theorem c4_missing_exp_accepted_witness :
    verifyToken demoMac demoSecret 999999 demoNoExpTok = .ok demoNoExpPayload :=
  c4_missing_exp_accepted demoMac demoSecret 999999
    ((base64UrlEncode headerJson).getD [])
    ((base64UrlEncode (stringifyPayload demoNoExpPayload)).getD [])
    ((createSignature demoMac
      ((base64UrlEncode headerJson).getD [] ++ '.' ::
        (base64UrlEncode (stringifyPayload demoNoExpPayload)).getD [])
      demoSecret).getD [])
    demoNoExpPayload rfl (by decide) (by decide) (by decide)

/-! ## Claim C5 — what the signature text encodes -/

theorem toNat_ofNat_small {n : Nat} (h : n < 256) : (Char.ofNat n).toNat = n := by
  have hv : n.isValidChar := Or.inl (by omega)
  simp [Char.ofNat, Char.ofNatAux, hv, Char.toNat]
  rfl

theorem encodeStrip_length (bs : List Nat) :
    (((encodeChunks bs).map urlRepl).filter (fun c => c ≠ '=')).length =
      (4 * bs.length + 2) / 3 := by
  induction bs using encodeChunks.induct with
  | case1 => rfl
  | case2 b1 =>
    simp only [encodeChunks, List.map_cons, List.map_nil, List.filter]
    rw [decide_eq_true (urlRepl_ne_pad _ (sixToChar_mem (b1 / 4))),
      decide_eq_true (urlRepl_ne_pad _ (sixToChar_mem (b1 % 4 * 16)))]
    simp [urlRepl]
  | case3 b1 b2 =>
    simp only [encodeChunks, List.map_cons, List.map_nil, List.filter]
    rw [decide_eq_true (urlRepl_ne_pad _ (sixToChar_mem (b1 / 4))),
      decide_eq_true (urlRepl_ne_pad _ (sixToChar_mem (b1 % 4 * 16 + b2 / 16))),
      decide_eq_true (urlRepl_ne_pad _ (sixToChar_mem (b2 % 16 * 4)))]
    simp [urlRepl]
  | case4 b1 b2 b3 rest ih =>
    have step : encodeChunks (b1 :: b2 :: b3 :: rest) =
        [sixToChar (b1 / 4), sixToChar (b1 % 4 * 16 + b2 / 16),
          sixToChar (b2 % 16 * 4 + b3 / 64), sixToChar (b3 % 64)] ++ encodeChunks rest := rfl
    rw [step, List.map_append, List.filter_append, List.length_append]
    have hfour : (([sixToChar (b1 / 4), sixToChar (b1 % 4 * 16 + b2 / 16),
        sixToChar (b2 % 16 * 4 + b3 / 64), sixToChar (b3 % 64)].map urlRepl).filter
          (fun c => c ≠ '=')).length = 4 := by
      simp only [List.map_cons, List.map_nil, List.filter]
      rw [decide_eq_true (urlRepl_ne_pad _ (sixToChar_mem (b1 / 4))),
        decide_eq_true (urlRepl_ne_pad _ (sixToChar_mem (b1 % 4 * 16 + b2 / 16))),
        decide_eq_true (urlRepl_ne_pad _ (sixToChar_mem (b2 % 16 * 4 + b3 / 64))),
        decide_eq_true (urlRepl_ne_pad _ (sixToChar_mem (b3 % 64)))]
      rfl
    rw [hfour, ih, List.length_cons, List.length_cons, List.length_cons]
    omega

theorem natToHexAux_zero (f : Nat) (acc : List Char) : natToHexAux f 0 acc = acc := by
  cases f <;> rfl

theorem byteToHex_length {b : Nat} (h : b < 256) : (byteToHex b).length = 2 := by
  unfold byteToHex natToHex
  by_cases h0 : b = 0
  · subst h0; rfl
  · rw [if_neg h0]
    obtain ⟨m, rfl⟩ : ∃ m, b = m + 1 := ⟨b - 1, by omega⟩
    rw [natToHexAux, if_neg (Nat.succ_ne_zero m)]
    by_cases h16 : m + 1 < 16
    · have hq : (m + 1) / 16 = 0 := by omega
      rw [hq, natToHexAux_zero]
      rfl
    · obtain ⟨k, rfl⟩ : ∃ k, m = k + 1 := ⟨m - 1, by omega⟩
      rw [natToHexAux, if_neg (by omega : ¬((k + 2) / 16 = 0))]
      have hq : (k + 2) / 16 / 16 = 0 := by omega
      rw [hq, natToHexAux_zero]
      simp

theorem hexOfBytes_length (bs : List Nat) (h : ∀ b ∈ bs, b < 256) :
    (hexOfBytes bs).length = 2 * bs.length := by
  induction bs with
  | nil => rfl
  | cons b rest ih =>
    have hstep : hexOfBytes (b :: rest) = byteToHex b ++ hexOfBytes rest := by
      simp [hexOfBytes]
    rw [hstep, List.length_append, byteToHex_length (h b (by simp)),
      ih (fun x hx => h x (by simp [hx]))]
    simp
    omega

/-- C5 amended: `createSignature` renders the MAC bytes as a lowercase hex
string and base64url-encodes that hex text; for every nonempty MAC output this
differs from the scheme the claim asserts (base64url of the raw MAC bytes
directly), the encodings of a hex string of 2n characters and of n raw bytes
having different lengths. -/
theorem c5_hex_scheme (mac : List Nat → List Nat → List Nat)
    (data secret : List Char)
    (hne : mac (utf8Encode data) (utf8Encode secret) ≠ [])
    (hlt : ∀ b ∈ mac (utf8Encode data) (utf8Encode secret), b < 256) :
    createSignature mac data secret =
      base64UrlEncode (hexOfBytes (mac (utf8Encode data) (utf8Encode secret))) ∧
    createSignature mac data secret ≠ createSignatureRawB64 mac data secret := by
  refine ⟨rfl, ?_⟩
  intro heq
  rw [createSignature_some] at heq
  have hall : ((mac (utf8Encode data) (utf8Encode secret)).map Char.ofNat).all
      (fun c => c.toNat < 256) = true := by
    refine List.all_eq_true.mpr ?_
    intro c hc
    rcases List.mem_map.mp hc with ⟨b, hb, rfl⟩
    exact decide_eq_true (by rw [toNat_ofNat_small (hlt b hb)]; exact hlt b hb)
  unfold createSignatureRawB64 base64UrlEncode btoa at heq
  rw [if_pos hall, Option.map_some'] at heq
  have hlists := Option.some.inj heq
  have hlens := congrArg List.length hlists
  rw [encodeStrip_length, encodeStrip_length] at hlens
  have hmapmap : ((mac (utf8Encode data) (utf8Encode secret)).map Char.ofNat).map
      Char.toNat = mac (utf8Encode data) (utf8Encode secret) := by
    rw [List.map_map]
    refine (List.map_congr_left ?_).trans (List.map_id _)
    intro b hb
    exact toNat_ofNat_small (hlt b hb)
  rw [hmapmap, List.length_map, hexOfBytes_length _ hlt] at hlens
  have hpos : 0 < (mac (utf8Encode data) (utf8Encode secret)).length :=
    List.length_pos.mpr hne
  omega

set_option maxRecDepth 1000000 in
/-- C5 counterexample: at a concrete MAC value with bytes `[3, 171]`, the
signature text is the base64url of the hex string `"03ab"` — `"MDNhYg"` — and
not the base64url of the raw bytes, which would be `"A6s"`. -/
theorem c5_counterexample :
    createSignature demoMac (S "d") demoSecret = some (S "MDNhYg") ∧
    createSignatureRawB64 demoMac (S "d") demoSecret = some (S "A6s") ∧
    createSignature demoMac (S "d") demoSecret ≠
      createSignatureRawB64 demoMac (S "d") demoSecret := by
  refine ⟨by decide, by decide, by decide⟩

set_option maxRecDepth 1000000 in
/-- Witness for C5 amended at concrete inputs. -/
theorem c5_hex_scheme_witness :
    createSignature demoMac (S "d") demoSecret =
      base64UrlEncode (hexOfBytes (demoMac (utf8Encode (S "d")) (utf8Encode demoSecret))) ∧
    createSignature demoMac (S "d") demoSecret ≠
      createSignatureRawB64 demoMac (S "d") demoSecret :=
  c5_hex_scheme demoMac (S "d") demoSecret (by decide) (by decide)

/-! ## Claim C6 — payload codec on Unicode input -/

/-- Payload-segment encoder: the `base64UrlEncode(JSON.stringify(payload))`
step of `signToken` (line 132 of `crypto-edge.ts`). -/
def encodePayloadSegment (p : JWTPayload) : Option (List Char) :=
  base64UrlEncode (stringifyPayload p)

/-- Payload-segment decoder: the `JSON.parse(base64UrlDecode(encodedPayload))`
step of `verifyToken` (lines 161-162 of `crypto-edge.ts`). -/
def decodePayloadSegment (s : List Char) : Option JWTPayload :=
  (base64UrlDecode s).bind parsePayloadJson

/-- Payload whose email contains the euro sign, code point 0x20AC > 0xFF. -/
def demoUnicodePayload : JWTPayload := ⟨S "u", [Char.ofNat 8364], S "x", none, none⟩

set_option maxRecDepth 1000000 in
/-- C6 counterexample: on a payload containing a character outside Latin-1 the
encoder fails outright (`btoa` throws on code units above 0xFF, since the text
is never re-encoded as UTF-8 bytes), so `decode ∘ encode` is not the identity
on Unicode payloads and encode does fail on Unicode input. -/
theorem c6_counterexample :
    encodePayloadSegment demoUnicodePayload = none := by
  decide

/-- C6 amended: whenever the payload-segment encoder succeeds — which is
exactly when every code unit of the serialised payload text fits in Latin-1 —
the decoder inverts it; on payloads with characters above 0xFF the encoder
fails instead of transcoding to UTF-8. -/
theorem c6_latin1_roundtrip (p : JWTPayload) (ep : List Char)
    (h : encodePayloadSegment p = some ep) :
    decodePayloadSegment ep = some p := by
  unfold encodePayloadSegment at h
  unfold decodePayloadSegment
  rw [base64UrlDecode_encode h]
  simp [parsePayloadJson_stringify]

set_option maxRecDepth 1000000 in
/-- Witness for C6 amended at a concrete Latin-1 payload. -/
theorem c6_latin1_roundtrip_witness :
    decodePayloadSegment
        ((encodePayloadSegment ⟨S "u1", S "a@b", S "student", some 1, some 2⟩).getD []) =
      some ⟨S "u1", S "a@b", S "student", some 1, some 2⟩ :=
  c6_latin1_roundtrip ⟨S "u1", S "a@b", S "student", some 1, some 2⟩ _ (by decide)

/-! ## Claims C7 and C10 — the access gate's role handling -/

/-- Valid-student-token verifier stand-in for concrete gate evaluations. -/
def demoVerStudent : List Char → Except String JWTPayload :=
  fun _ => .ok ⟨S "u1", S "a@b", S "student", some 1, some 2⟩

/-- C7: a request bearing a valid token whose role is `student` to an
instructor-only route (a path with the `/instructor` prefix) never yields an
allow: the API-style deny-403 case is vacuous — no `/instructor`-prefixed path
is `/api/`-prefixed, recorded by the first conjunct — and the page-style case
redirects to the student landing route `/student/quiz`; symmetrically, a valid
instructor token on a student-only route redirects to
`/instructor/dashboard`. -/
theorem c7_role_gating (ver : List Char → Except String JWTPayload)
    (rest t : List Char) (pl : JWTPayload) (ht : t ≠ []) (hv : ver t = .ok pl) :
    (pl.role = S "student" →
      (S "/api/").isPrefixOf (S "/instructor" ++ rest) = false ∧
      middleware ver (S "/instructor" ++ rest) (some t) =
        .redirect (S "/student/quiz") false ∧
      middleware ver (S "/instructor" ++ rest) (some t) ≠ .next ∧
      (∀ uid rl, middleware ver (S "/instructor" ++ rest) (some t) ≠ .nextWith uid rl))
    ∧
    (pl.role = S "instructor" →
      (S "/api/").isPrefixOf (S "/student" ++ rest) = false ∧
      middleware ver (S "/student" ++ rest) (some t) =
        .redirect (S "/instructor/dashboard") false ∧
      middleware ver (S "/student" ++ rest) (some t) ≠ .next ∧
      (∀ uid rl, middleware ver (S "/student" ++ rest) (some t) ≠ .nextWith uid rl)) := by
  have hne : t.isEmpty = false := by simp [List.isEmpty_iff, ht]
  constructor
  · intro hrole
    have hred : middleware ver (S "/instructor" ++ rest) (some t) =
        .redirect (S "/student/quiz") false := by
      simp only [middleware, hne]
      simp [S, hv, hrole]
    exact ⟨rfl, hred, by simp [hred], fun uid rl => by simp [hred]⟩
  · intro hrole
    have hred : middleware ver (S "/student" ++ rest) (some t) =
        .redirect (S "/instructor/dashboard") false := by
      simp only [middleware, hne]
      simp [S, hv, hrole]
    exact ⟨rfl, hred, by simp [hred], fun uid rl => by simp [hred]⟩

/-- Witness for C7 at a concrete instructor-only page route. -/
theorem c7_role_gating_witness :
    middleware demoVerStudent (S "/instructor" ++ S "/questions") (some (S "t")) =
      .redirect (S "/student/quiz") false :=
  ((c7_role_gating demoVerStudent (S "/questions") (S "t")
    ⟨S "u1", S "a@b", S "student", some 1, some 2⟩ (by decide) rfl).1 rfl).2.1

/-- C10 (implicit): the gate enforces role matching only for the
`/instructor` and `/student` path prefixes; on every other route it covers —
protected, not one of the public or auth-skipped paths — a request with a
valid token is passed through with the identity headers attached, whatever
the token's role; in particular every `/api/` route the gate covers. -/
theorem c10_gate_role_blind (ver : List Char → Except String JWTPayload)
    (path t : List Char) (pl : JWTPayload)
    (ht : t ≠ []) (hv : ver t = .ok pl)
    (hskip1 : (S "/api/auth").isPrefixOf path = false)
    (hskip2 : path ≠ S "/api/health")
    (hpub1 : path ≠ S "/") (hpub2 : path ≠ S "/login") (hpub3 : path ≠ S "/signup")
    (hins : (S "/instructor").isPrefixOf path = false)
    (hstu : (S "/student").isPrefixOf path = false) :
    middleware ver path (some t) = .nextWith pl.userId pl.role := by
  have hne : t.isEmpty = false := by simp [List.isEmpty_iff, ht]
  simp only [middleware, hne, hskip1, hins, hstu]
  simp [hskip2, hpub1, hpub2, hpub3, hv]

/-- Witness for C10 at a concrete covered API route with a student token. -/
theorem c10_gate_role_blind_witness :
    middleware demoVerStudent (S "/api/quiz/submit") (some (S "t")) =
      .nextWith (S "u1") (S "student") :=
  c10_gate_role_blind demoVerStudent (S "/api/quiz/submit") (S "t")
    ⟨S "u1", S "a@b", S "student", some 1, some 2⟩ (by decide) rfl
    (by decide) (by decide) (by decide) (by decide) (by decide) (by decide) (by decide)

/-! ## Claim C8 — timing behaviour of the signature comparison -/

/-- C8 counterexample: under the cost model counting character comparisons of
the short-circuit equality that `signature !== expectedSignature` performs,
two equal-length candidate signatures compared against `"aa"` cost differently
depending on where the first difference sits (1 comparison when it is at
position 0, 2 when at position 1) — the comparison is not constant-time. -/
theorem c8_counterexample :
    (S "ba").length = (S "ab").length ∧
    (strCmpSteps (S "aa") (S "ba")).1 = 1 ∧
    (strCmpSteps (S "aa") (S "ab")).1 = 2 ∧
    (strCmpSteps (S "aa") (S "ba")).1 ≠ (strCmpSteps (S "aa") (S "ab")).1 := by
  refine ⟨rfl, rfl, rfl, by decide⟩

/-- C8 amended: `verifyToken` compares the provided signature to the
recomputed one with ordinary short-circuit string equality (`!==`), whose
number of character comparisons is one more than the length of the common
prefix — it grows with the position of the first differing character rather
than being constant over equal-length inputs. -/
theorem c8_short_circuit_cost (p s1 s2 : List Char) (a b : Char)
    (hab : a ≠ b) (hlen : s1.length = s2.length) :
    (strCmpSteps (p ++ a :: s1) (p ++ b :: s2)).1 = p.length + 1 ∧
    jsStrEq (p ++ a :: s1) (p ++ b :: s2) = false := by
  induction p with
  | nil =>
    constructor
    · simp [strCmpSteps, hab]
    · simp [jsStrEq, strCmpSteps, hab]
  | cons c p ih =>
    constructor
    · simp [strCmpSteps]
      exact ih.1
    · simp [jsStrEq, strCmpSteps]
      exact ih.2

/-- Witness for C8 amended at concrete inputs. -/
theorem c8_short_circuit_cost_witness :
    (strCmpSteps (S "a" ++ 'x' :: []) (S "a" ++ 'y' :: [])).1 = (S "a").length + 1 ∧
    jsStrEq (S "a" ++ 'x' :: []) (S "a" ++ 'y' :: []) = false :=
  c8_short_circuit_cost (S "a") [] [] 'x' 'y' (by decide) rfl

/-! ## Claim C9 — password hashing behaviour -/

/-- C9 counterexample: `hash` draws no randomness — its result is a function
of the password alone — so two calls on the same input produce the identical
stored form, not different salted forms; verification of the same password
against that stored form succeeds. -/
theorem c9_counterexample :
    hash demoSha (S "correct-password") = hash demoSha (S "correct-password") ∧
    ¬(hash demoSha (S "correct-password") ≠ hash demoSha (S "correct-password")) ∧
    compare demoSha (S "correct-password") (hash demoSha (S "correct-password")) = true := by
  refine ⟨rfl, by simp, by decide⟩

/-- C9 amended: `verifyPassword(p, hashPassword(p))` is true for every
password; `hashPassword` is a deterministic, unsalted hex-rendered SHA-256
digest of the password alone, so equal inputs always yield the identical
stored form, and `verifyPassword(q, hashPassword(p))` holds exactly when the
digests of q and p coincide. -/
theorem c9_hash_behavior (sha : List Nat → List Nat) (p q : List Char) :
    compare sha p (hash sha p) = true ∧
    hash sha p = hexOfBytes (sha (utf8Encode p)) ∧
    (compare sha q (hash sha p) = true ↔
      hexOfBytes (sha (utf8Encode q)) = hexOfBytes (sha (utf8Encode p))) := by
  refine ⟨?_, rfl, ?_⟩
  · simp [compare]
  · simp [compare, hash]

end QuizAuth

